import Mathlib

/-!
Verification of a Rust reimplementation of the `cat` utility (src/main.rs).

The development shallowly embeds the program:
  * `Args` mirrors the clap-derived argument record;
  * `resolveArgs` mirrors the alias/override block at the top of `main`;
  * `npEscape` / `tabEscape` mirror the per-byte closures inside
    `format_buffer` for `show_non_printing` and `show_tabs`;
  * `formatBuffer` mirrors `format_buffer` (bytes are `Nat`; the value
    `none` models the `unwrap` on a missing line-feed index, which aborts
    the process);
  * `catEvents` / `catRun` / `mainRun` mirror the read loop in `cat` and
    the file loop in `main`; a source is a list of read events (chunks
    returned by `read_until`, or an I/O error);
  * `formatBufferN` / `catEventsN` / `catRunN` are the same functions
    instrumented to also return the sequence of emitted line numbers;
    projection lemmas relate them to the plain versions.
-/

/-- Mirror of the clap `Args` struct (booleans only; the file list is
passed separately to the run functions). -/
structure Args where
  show_all : Bool
  number_nonblank : Bool
  e : Bool
  show_ends : Bool
  number : Bool
  squeeze_blank : Bool
  t : Bool
  show_tabs : Bool
  u : Bool
  show_non_printing : Bool
deriving DecidableEq, Repr

/-- The alias/override block at the top of `main` (src/main.rs lines
163-182), applied in source order: `-e`, then the `number_nonblank`
override, then `-A`, then `-t`. -/
def resolveArgs (a : Args) : Args :=
  let a1 := if a.e then { a with show_ends := true, show_non_printing := true } else a
  let a2 := if a1.number_nonblank then { a1 with number := false } else a1
  let a3 := if a2.show_all then
      { a2 with show_ends := true, show_non_printing := true, show_tabs := true }
    else a2
  if a3.t then { a3 with show_non_printing := true, show_tabs := true } else a3

/-- `needs_formatting` in `main` (src/main.rs lines 185-190). -/
def needsFormatting (a : Args) : Bool :=
  a.number || a.number_nonblank || a.show_ends || a.squeeze_blank
    || a.show_tabs || a.show_non_printing

/-- An `Args` value with every flag false. -/
def allFalse : Args :=
  ⟨false, false, false, false, false, false, false, false, false, false⟩

/-- `line.len() == 1 && line[0] == 10` (src/main.rs line 59). -/
def isNewLine (line : List Nat) : Bool :=
  line.length == 1 && line.getD 0 0 == 10

/-- `Vec::insert(i, b)`: insert `b` at position `i`, shifting the tail. -/
def insertAt (i : Nat) (b : Nat) (l : List Nat) : List Nat :=
  l.take i ++ b :: l.drop i

/-- The per-byte closure of the `show_non_printing` pass
(src/main.rs lines 83-100), transcribed branch for branch. -/
def npEscape (c : Nat) : List Nat :=
  if c < 32 ∧ c ≠ 10 ∧ c ≠ 9 then [94, c + 64]
  else if c = 127 then [94, 63]
  else if 127 < c then
    if 128 + 32 ≤ c then
      if c < 255 then [77, 45, c - 128] else [77, 45, 94, 63]
    else [77, 45, 94, c - 128 + 64]
  else [c]

/-- The per-byte closure of the `show_tabs` pass (src/main.rs lines
109-114). -/
def tabEscape (c : Nat) : List Nat :=
  if c = 9 then [94, 73] else [c]

/-- Fuel-driven digit expansion (structural so that concrete runs reduce
by `rfl`). -/
def natDigitsGo (fuel n : Nat) : List Nat :=
  match fuel with
  | 0 => []
  | fuel + 1 => if n < 10 then [48 + n] else natDigitsGo fuel (n / 10) ++ [48 + n % 10]

/-- The bytes of `line_number.to_string()` (decimal ASCII digits). -/
def natDigits (n : Nat) : List Nat :=
  natDigitsGo (n + 1) n

/-- `format_buffer` (src/main.rs lines 58-124).  Input: the raw line, the
options, and the two counters; output: the bytes written for this line and
the updated counters, or `none` when the `unwrap` on `new_line_idx`
aborts (a line with no line-feed while `show_ends` is active). -/
def formatBuffer (a : Args) (line : List Nat) (line_number newlines : Nat) :
    Option (List Nat × Nat × Nat) :=
  let is_new_line := isNewLine line
  let new_line_idx := line.findIdx? (fun x => x == 10)
  let newlines' := if is_new_line && a.squeeze_blank then newlines + 1 else 0
  if is_new_line && a.squeeze_blank && decide (newlines + 1 > 1) then
    some ([], line_number, newlines')
  else
    match (if a.show_ends then new_line_idx.map (fun i => insertAt i 36 line)
           else some line) with
    | none => none
    | some l1 =>
      let l2 := if a.show_non_printing then l1.flatMap npEscape else l1
      let l3 := if a.show_tabs then l2.flatMap tabEscape else l2
      if a.number || (a.number_nonblank && !is_new_line) then
        some (natDigits line_number ++ 32 :: l3, line_number + 1, newlines')
      else
        some (l3, line_number, newlines')

/-- `format_buffer`, instrumented to additionally report the line number
prepended to this line (`none` when the line was not numbered). -/
def formatBufferN (a : Args) (line : List Nat) (line_number newlines : Nat) :
    Option (List Nat × Option Nat × Nat × Nat) :=
  let is_new_line := isNewLine line
  let new_line_idx := line.findIdx? (fun x => x == 10)
  let newlines' := if is_new_line && a.squeeze_blank then newlines + 1 else 0
  if is_new_line && a.squeeze_blank && decide (newlines + 1 > 1) then
    some ([], none, line_number, newlines')
  else
    match (if a.show_ends then new_line_idx.map (fun i => insertAt i 36 line)
           else some line) with
    | none => none
    | some l1 =>
      let l2 := if a.show_non_printing then l1.flatMap npEscape else l1
      let l3 := if a.show_tabs then l2.flatMap tabEscape else l2
      if a.number || (a.number_nonblank && !is_new_line) then
        some (natDigits line_number ++ 32 :: l3, some line_number,
              line_number + 1, newlines')
      else
        some (l3, none, line_number, newlines')

/-- One result of `reader.read_until(b'\n', ..)`: either a chunk of bytes
(the next line, terminator included unless the source ends without one),
or an I/O error carrying its message. -/
inductive ReadEv where
  | chunk : List Nat → ReadEv
  | err : String → ReadEv
deriving DecidableEq, Repr

/-- The read loop of `cat` (src/main.rs lines 138-157) over the events of
one source.  Returns the emitted bytes, the diagnostics printed to the
error stream, and the final line number; `none` models a process abort
inside `format_buffer`.  An empty chunk is `Ok(0)`, i.e. end of input. -/
def catEvents (a : Args) (nf : Bool) :
    List ReadEv → Nat → Nat → Option (List Nat × List String × Nat)
  | [], ln, _ => some ([], [], ln)
  | ReadEv.err e :: _, ln, _ => some ([], ["Error reading line: " ++ e], ln)
  | ReadEv.chunk l :: rest, ln, nl =>
    if l.length = 0 then some ([], [], ln)
    else if nf then
      (formatBuffer a l ln nl).bind fun r =>
        (catEvents a nf rest r.2.1 r.2.2).map fun s => (r.1 ++ s.1, s.2.1, s.2.2)
    else
      (catEvents a nf rest ln nl).map fun s => (l ++ s.1, s.2.1, s.2.2)

/-- The file loop of `main` (src/main.rs lines 195-197) together with the
body of `cat`: each source gets a fresh `newlines` counter (`cat` declares
it locally, line 135) while `line_number` is threaded through. -/
def catRun (a : Args) (nf : Bool) :
    List (List ReadEv) → Nat → Option (List Nat × List String × Nat)
  | [], ln => some ([], [], ln)
  | src :: rest, ln =>
    (catEvents a nf src ln 0).bind fun r =>
      (catRun a nf rest r.2.2).map fun s => (r.1 ++ s.1, r.2.1 ++ s.2.1, s.2.2)

/-- `main` (src/main.rs lines 160-198): resolve the options, compute
`needs_formatting`, start the line number at 1, process every source. -/
def mainRun (a : Args) (sources : List (List ReadEv)) :
    Option (List Nat × List String × Nat) :=
  catRun (resolveArgs a) (needsFormatting (resolveArgs a)) sources 1

/-- Process exit status: 0 on a normal return from `main`, 101 when the
process aborts. -/
def exitCode (a : Args) (sources : List (List ReadEv)) : Nat :=
  match mainRun a sources with
  | some _ => 0
  | none => 101

/-- `catEvents`, instrumented with the emitted line numbers. -/
def catEventsN (a : Args) (nf : Bool) :
    List ReadEv → Nat → Nat → Option (List Nat × List Nat × List String × Nat)
  | [], ln, _ => some ([], [], [], ln)
  | ReadEv.err e :: _, ln, _ => some ([], [], ["Error reading line: " ++ e], ln)
  | ReadEv.chunk l :: rest, ln, nl =>
    if l.length = 0 then some ([], [], [], ln)
    else if nf then
      (formatBufferN a l ln nl).bind fun r =>
        (catEventsN a nf rest r.2.2.1 r.2.2.2).map fun s =>
          (r.1 ++ s.1, r.2.1.toList ++ s.2.1, s.2.2.1, s.2.2.2)
    else
      (catEventsN a nf rest ln nl).map fun s => (l ++ s.1, s.2.1, s.2.2.1, s.2.2.2)

/-- `catRun`, instrumented with the emitted line numbers. -/
def catRunN (a : Args) (nf : Bool) :
    List (List ReadEv) → Nat → Option (List Nat × List Nat × List String × Nat)
  | [], ln => some ([], [], [], ln)
  | src :: rest, ln =>
    (catEventsN a nf src ln 0).bind fun r =>
      (catRunN a nf rest r.2.2.2).map fun s =>
        (r.1 ++ s.1, r.2.1 ++ s.2.1, r.2.2.1 ++ s.2.2.1, s.2.2.2)

/-- The chunking performed by `read_until(b'\n', ..)` over a whole byte
sequence: split after every line-feed, final chunk possibly
unterminated. -/
def splitLines : List Nat → List (List Nat)
  | [] => []
  | c :: rest =>
    if c = 10 then [10] :: splitLines rest
    else
      match splitLines rest with
      | [] => [[c]]
      | l :: ls => (c :: l) :: ls

/-- Options with only `show_ends` set (the `-E` flag). -/
def endsOnly : Args := { allFalse with show_ends := true }

/-- Options with only `show_tabs` set (the `-T` flag). -/
def tabsOnly : Args := { allFalse with show_tabs := true }

/-- Options with only `show_non_printing` set (the `-v` flag). -/
def vOnly : Args := { allFalse with show_non_printing := true }

/-- Options with only `squeeze_blank` set (the `-s` flag). -/
def sqOnly : Args := { allFalse with squeeze_blank := true }

/-- Options with `number` and `squeeze_blank` set (the `-sn` flags). -/
def numSq : Args := { allFalse with number := true, squeeze_blank := true }

/-- Options with the three show flags set (what `-A` resolves to). -/
def showAllOpts : Args :=
  { allFalse with show_ends := true, show_non_printing := true, show_tabs := true }

/-! Basic lemmas about the byte-level helpers. -/

lemma isNewLine_iff (l : List Nat) : isNewLine l = true ↔ l = [10] := by
  unfold isNewLine
  cases l with
  | nil => simp
  | cons a t =>
    cases t with
    | nil => simp [List.getD]
    | cons c t2 => simp [List.getD]

lemma isNewLine_eq_false (l : List Nat) (h : l ≠ [10]) : isNewLine l = false := by
  cases hbl : isNewLine l
  · rfl
  · exact absurd ((isNewLine_iff l).1 hbl) h

lemma natDigitsGo_mem (fuel : Nat) :
    ∀ (n : Nat), ∀ x ∈ natDigitsGo fuel n, 48 ≤ x ∧ x ≤ 57 := by
  induction fuel with
  | zero => intro n x hx; simp [natDigitsGo] at hx
  | succ fuel ih =>
    intro n x hx
    rw [natDigitsGo] at hx
    split at hx
    · simp only [List.mem_singleton] at hx
      omega
    · rw [List.mem_append] at hx
      rcases hx with h | h
      · exact ih (n / 10) x h
      · simp only [List.mem_singleton] at h
        omega

lemma natDigits_mem (n : Nat) : ∀ x ∈ natDigits n, 48 ≤ x ∧ x ≤ 57 :=
  natDigitsGo_mem (n + 1) n

set_option maxRecDepth 8192 in
lemma npEscape_mem : ∀ b, b < 256 → ∀ x ∈ npEscape b,
    x = 9 ∨ x = 10 ∨ (32 ≤ x ∧ x ≤ 126) := by decide

lemma tabEscape_mem (x : Nat) (hx : x = 9 ∨ x = 10 ∨ (32 ≤ x ∧ x ≤ 126)) :
    ∀ b ∈ tabEscape x, b = 10 ∨ (32 ≤ b ∧ b ≤ 126) := by
  intro b hb
  unfold tabEscape at hb
  split at hb
  · simp at hb
    omega
  · simp only [List.mem_singleton] at hb
    subst hb
    rename_i hne
    rcases hx with h9 | h10 | hpr
    · exact absurd h9 hne
    · exact Or.inl h10
    · exact Or.inr hpr

lemma insertAt_mem (i b x : Nat) (l : List Nat) (h : x ∈ insertAt i b l) :
    x = b ∨ x ∈ l := by
  unfold insertAt at h
  rw [List.mem_append, List.mem_cons] at h
  rcases h with h | h | h
  · exact Or.inr (List.mem_of_mem_take h)
  · exact Or.inl h
  · exact Or.inr (List.mem_of_mem_drop h)

lemma findIdx?_terminator (content : List Nat) (h : 10 ∉ content) :
    (content ++ [10]).findIdx? (fun x => x == 10) = some content.length := by
  induction content with
  | nil => rfl
  | cons a t ih =>
    have ha : (a == 10) = false := by
      simp only [beq_eq_false_iff_ne, ne_eq]
      intro hc
      exact h (by simp [hc])
    have ht : 10 ∉ t := fun hc => h (List.mem_cons_of_mem a hc)
    simp [List.findIdx?_cons, ha, ih ht]

lemma insertAt_terminator (content : List Nat) (b : Nat) :
    insertAt content.length b (content ++ [10]) = content ++ [b, 10] := by
  unfold insertAt
  rw [List.take_left, List.drop_left]

/-! Lemmas about `resolveArgs` and `formatBuffer`. -/

lemma resolveArgs_number (a : Args) :
    (resolveArgs a).number = (a.number && !a.number_nonblank) := by
  cases a with
  | mk f1 f2 f3 f4 f5 f6 f7 f8 f9 f10 =>
    cases f3 <;> cases f2 <;> cases f1 <;> cases f7 <;> simp [resolveArgs]

lemma resolveArgs_number_nonblank (a : Args) :
    (resolveArgs a).number_nonblank = a.number_nonblank := by
  cases a with
  | mk f1 f2 f3 f4 f5 f6 f7 f8 f9 f10 =>
    cases f3 <;> cases f2 <;> cases f1 <;> cases f7 <;> simp [resolveArgs]

lemma resolveArgs_squeeze (a : Args) :
    (resolveArgs a).squeeze_blank = a.squeeze_blank := by
  cases a with
  | mk f1 f2 f3 f4 f5 f6 f7 f8 f9 f10 =>
    cases f3 <;> cases f2 <;> cases f1 <;> cases f7 <;> simp [resolveArgs]

lemma resolveArgs_both (a : Args) :
    resolveArgs { a with number := true, number_nonblank := true }
      = resolveArgs { a with number := false, number_nonblank := true } := by
  cases a with
  | mk f1 f2 f3 f4 f5 f6 f7 f8 f9 f10 =>
    cases f3 <;> cases f1 <;> cases f7 <;> rfl

lemma formatBuffer_allFalse (line : List Nat) (ln nl : Nat) :
    formatBuffer allFalse line ln nl = some (line, ln, 0) := by
  simp [formatBuffer, allFalse]

lemma formatBufferN_step (a : Args) (line : List Nat) (ln nl : Nat)
    (out : List Nat) (k : Option Nat) (ln' nl' : Nat)
    (h : formatBufferN a line ln nl = some (out, k, ln', nl')) :
    (k = none ∧ ln' = ln) ∨ (k = some ln ∧ ln' = ln + 1) := by
  simp only [formatBufferN] at h
  split at h
  · simp only [Option.some.injEq, Prod.mk.injEq] at h
    exact Or.inl ⟨h.2.1.symm, h.2.2.1.symm⟩
  · split at h
    · exact absurd h (by simp)
    · split at h
      · simp only [Option.some.injEq, Prod.mk.injEq] at h
        exact Or.inr ⟨h.2.1.symm, h.2.2.1.symm⟩
      · simp only [Option.some.injEq, Prod.mk.injEq] at h
        exact Or.inl ⟨h.2.1.symm, h.2.2.1.symm⟩

lemma formatBufferN_no_number (b : Args) (line out : List Nat) (k : Option Nat)
    (ln nl ln' nl' : Nat) (hnum : b.number = false) (hline : isNewLine line = true)
    (h : formatBufferN b line ln nl = some (out, k, ln', nl')) :
    k = none ∧ ln' = ln := by
  simp only [formatBufferN, hline, hnum, Bool.not_true, Bool.and_false, Bool.false_or,
    Bool.false_eq_true, if_false] at h
  split at h
  · simp only [Option.some.injEq, Prod.mk.injEq] at h
    exact ⟨h.2.1.symm, h.2.2.1.symm⟩
  · split at h
    · exact absurd h (by simp)
    · simp only [Option.some.injEq, Prod.mk.injEq] at h
      exact ⟨h.2.1.symm, h.2.2.1.symm⟩

lemma formatBufferN_nonblank_number (b : Args) (line out : List Nat) (k : Option Nat)
    (ln nl ln' nl' : Nat) (hnb : b.number_nonblank = true) (hline : isNewLine line = false)
    (h : formatBufferN b line ln nl = some (out, k, ln', nl')) :
    k = some ln ∧ ln' = ln + 1 := by
  simp only [formatBufferN, hline, hnb, Bool.not_false, Bool.true_and, Bool.and_true,
    Bool.or_true, Bool.false_and, Bool.false_eq_true, if_false, if_true] at h
  split at h
  · exact absurd h (by simp)
  · simp only [Option.some.injEq, Prod.mk.injEq] at h
    exact ⟨h.2.1.symm, h.2.2.1.symm⟩

lemma formatBuffer_eq_N (a : Args) (line : List Nat) (ln nl : Nat) :
    formatBuffer a line ln nl
      = (formatBufferN a line ln nl).map (fun r => (r.1, r.2.2)) := by
  simp only [formatBuffer, formatBufferN]
  split
  · rfl
  · split
    · rfl
    · split <;> rfl


/-! Lemmas about the run functions. -/

lemma catEvents_eq_N (a : Args) (nf : Bool) :
    ∀ (evs : List ReadEv) (ln nl : Nat),
    catEvents a nf evs ln nl
      = (catEventsN a nf evs ln nl).map (fun r => (r.1, r.2.2)) := by
  intro evs
  induction evs with
  | nil => intro ln nl; rfl
  | cons ev rest ih =>
    intro ln nl
    cases ev with
    | err e => rfl
    | chunk l =>
      by_cases hl : l.length = 0
      · simp [catEvents, catEventsN, hl]
      · cases nf with
        | false =>
          simp only [catEvents, catEventsN, if_neg hl, Bool.false_eq_true, if_false]
          rw [ih ln nl]
          cases hre : catEventsN a false rest ln nl with
          | none => rfl
          | some s => rfl
        | true =>
          simp only [catEvents, catEventsN, if_neg hl, if_true]
          rw [formatBuffer_eq_N]
          cases hfb : formatBufferN a l ln nl with
          | none => rfl
          | some r =>
            simp only [Option.map_some', Option.some_bind]
            rw [ih r.2.2.1 r.2.2.2]
            cases hre : catEventsN a true rest r.2.2.1 r.2.2.2 with
            | none => rfl
            | some s => rfl

lemma catRun_eq_N (a : Args) (nf : Bool) :
    ∀ (srcs : List (List ReadEv)) (ln : Nat),
    catRun a nf srcs ln = (catRunN a nf srcs ln).map (fun r => (r.1, r.2.2)) := by
  intro srcs
  induction srcs with
  | nil => intro ln; rfl
  | cons src rest ih =>
    intro ln
    simp only [catRun, catRunN]
    rw [catEvents_eq_N]
    cases hev : catEventsN a nf src ln 0 with
    | none => rfl
    | some r =>
      simp only [Option.map_some', Option.some_bind]
      rw [ih r.2.2.2]
      cases hre : catRunN a nf rest r.2.2.2 with
      | none => rfl
      | some s => rfl

lemma catEventsN_nums (a : Args) (nf : Bool) :
    ∀ (evs : List ReadEv) (ln nl : Nat) (out ks : List Nat) (ds : List String) (ln' : Nat),
    catEventsN a nf evs ln nl = some (out, ks, ds, ln') →
    ln ≤ ln' ∧ ks = List.range' ln (ln' - ln) := by
  intro evs
  induction evs with
  | nil =>
    intro ln nl out ks ds ln' h
    simp only [catEventsN, Option.some.injEq, Prod.mk.injEq] at h
    obtain ⟨-, hks, -, hln⟩ := h
    subst hln
    simp [hks.symm]
  | cons ev rest ih =>
    intro ln nl out ks ds ln' h
    cases ev with
    | err e =>
      simp only [catEventsN, Option.some.injEq, Prod.mk.injEq] at h
      obtain ⟨-, hks, -, hln⟩ := h
      subst hln
      simp [hks.symm]
    | chunk l =>
      by_cases hl : l.length = 0
      · simp only [catEventsN, if_pos hl, Option.some.injEq, Prod.mk.injEq] at h
        obtain ⟨-, hks, -, hln⟩ := h
        subst hln
        simp [hks.symm]
      · cases nf with
        | false =>
          simp only [catEventsN, if_neg hl, Bool.false_eq_true, if_false,
            Option.map_eq_some'] at h
          obtain ⟨s, hre, hs⟩ := h
          obtain ⟨o2, ks2, ds2, ln2⟩ := s
          simp only [Prod.mk.injEq] at hs
          obtain ⟨-, hks, -, hln⟩ := hs
          subst hln
          obtain ⟨hle, hks2⟩ := ih ln nl o2 ks2 ds2 ln2 hre
          exact ⟨hle, hks.symm.trans hks2⟩
        | true =>
          simp only [catEventsN, if_neg hl, if_true, Option.bind_eq_some,
            Option.map_eq_some'] at h
          obtain ⟨r, hfb, s, hre, hs⟩ := h
          obtain ⟨o, k, ln1, nl1⟩ := r
          obtain ⟨o2, ks2, ds2, ln2⟩ := s
          simp only [Prod.mk.injEq] at hs
          obtain ⟨-, hks, -, hln⟩ := hs
          subst hln
          obtain ⟨hle, hks2⟩ := ih ln1 nl1 o2 ks2 ds2 ln2 hre
          rcases formatBufferN_step a l ln nl o k ln1 nl1 hfb with ⟨hk, hl1⟩ | ⟨hk, hl1⟩
          · subst hk hl1
            refine ⟨hle, ?_⟩
            rw [← hks, hks2]
            rfl
          · subst hk hl1
            refine ⟨by omega, ?_⟩
            rw [← hks, hks2]
            have harith : ln2 - ln = (ln2 - (ln + 1)) + 1 := by omega
            rw [harith, List.range'_succ]
            rfl

lemma catRunN_nums (a : Args) (nf : Bool) :
    ∀ (srcs : List (List ReadEv)) (ln : Nat) (out ks : List Nat) (ds : List String) (ln' : Nat),
    catRunN a nf srcs ln = some (out, ks, ds, ln') →
    ln ≤ ln' ∧ ks = List.range' ln (ln' - ln) := by
  intro srcs
  induction srcs with
  | nil =>
    intro ln out ks ds ln' h
    simp only [catRunN, Option.some.injEq, Prod.mk.injEq] at h
    obtain ⟨-, hks, -, hln⟩ := h
    subst hln
    simp [hks.symm]
  | cons src rest ih =>
    intro ln out ks ds ln' h
    simp only [catRunN, Option.bind_eq_some, Option.map_eq_some'] at h
    obtain ⟨r, hev, s, hre, hs⟩ := h
    obtain ⟨o, ks1, ds1, ln1⟩ := r
    obtain ⟨o2, ks2, ds2, ln2⟩ := s
    simp only [Prod.mk.injEq] at hs
    obtain ⟨-, hks, -, hln⟩ := hs
    subst hln
    obtain ⟨hle1, hks1⟩ := catEventsN_nums a nf src ln 0 o ks1 ds1 ln1 hev
    obtain ⟨hle2, hks2⟩ := ih ln1 o2 ks2 ds2 ln2 hre
    refine ⟨by omega, ?_⟩
    rw [← hks, hks1, hks2]
    have h1 : List.range' ln (ln1 - ln) ++ List.range' (ln + (ln1 - ln)) (ln2 - ln1)
        = List.range' ln ((ln2 - ln1) + (ln1 - ln)) := List.range'_append_1 ..
    have h2 : ln + (ln1 - ln) = ln1 := by omega
    have h3 : (ln2 - ln1) + (ln1 - ln) = ln2 - ln := by omega
    rw [h2, h3] at h1
    exact h1

lemma catEvents_bypass :
    ∀ (evs : List ReadEv) (ln nl nl2 : Nat),
    catEvents allFalse false evs ln nl = catEvents allFalse true evs ln nl2 := by
  intro evs
  induction evs with
  | nil => intro ln nl nl2; rfl
  | cons ev rest ih =>
    intro ln nl nl2
    cases ev with
    | err e => rfl
    | chunk l =>
      by_cases hl : l.length = 0
      · simp [catEvents, hl]
      · simp only [catEvents, if_neg hl, Bool.false_eq_true, if_false, if_true,
          formatBuffer_allFalse, Option.some_bind]
        rw [ih ln nl 0]

lemma catRun_bypass :
    ∀ (srcs : List (List ReadEv)) (ln : Nat),
    catRun allFalse false srcs ln = catRun allFalse true srcs ln := by
  intro srcs
  induction srcs with
  | nil => intro ln; rfl
  | cons src rest ih =>
    intro ln
    simp only [catRun]
    rw [catEvents_bypass src ln 0 0]
    cases hev : catEvents allFalse true src ln 0 with
    | none => rfl
    | some r =>
      simp only [Option.some_bind]
      rw [ih r.2.2]

lemma catEvents_chunks :
    ∀ (chunks : List (List Nat)) (ln nl : Nat),
    (∀ c ∈ chunks, c ≠ []) →
    catEvents allFalse true (chunks.map ReadEv.chunk) ln nl
      = some (chunks.flatten, [], ln) := by
  intro chunks
  induction chunks with
  | nil => intro ln nl h; rfl
  | cons c rest ih =>
    intro ln nl h
    have hc : c ≠ [] := h c (List.mem_cons_self c rest)
    have hlen : ¬(c.length = 0) := by
      simpa [List.length_eq_zero] using hc
    simp only [List.map_cons, catEvents, if_neg hlen, if_true, formatBuffer_allFalse,
      Option.some_bind]
    rw [ih ln 0 (fun x hx => h x (List.mem_cons_of_mem c hx))]
    simp

lemma splitLines_flatten : ∀ (s : List Nat), (splitLines s).flatten = s := by
  intro s
  induction s with
  | nil => rfl
  | cons c rest ih =>
    by_cases hc : c = 10
    · subst hc
      simp [splitLines, ih]
    · simp only [splitLines, if_neg hc]
      cases hsp : splitLines rest with
      | nil =>
        have : rest = [] := by
          rw [← ih, hsp]
          rfl
        simp [this]
      | cons l ls =>
        rw [hsp] at ih
        simp only [List.flatten_cons] at ih ⊢
        simp [← ih]

lemma splitLines_ne_nil : ∀ (s : List Nat), ∀ c ∈ splitLines s, c ≠ [] := by
  intro s
  induction s with
  | nil => intro c hc; simp [splitLines] at hc
  | cons x rest ih =>
    intro c hc
    by_cases hx : x = 10
    · subst hx
      simp only [splitLines, reduceIte, List.mem_cons] at hc
      rcases hc with h | h
      · subst h; simp
      · exact ih c h
    · simp only [splitLines, if_neg hx] at hc
      cases hsp : splitLines rest with
      | nil =>
        rw [hsp] at hc
        simp only [List.mem_singleton] at hc
        subst hc
        simp
      | cons l ls =>
        rw [hsp] at hc
        simp only [List.mem_cons] at hc
        rcases hc with h | h
        · subst h; simp
        · exact ih c (by rw [hsp]; exact List.mem_cons_of_mem l h)

lemma formatBuffer_mem (a : Args) (line out : List Nat) (ln nl ln' nl' : Nat)
    (hends : a.show_ends = true) (hnp : a.show_non_printing = true)
    (htabs : a.show_tabs = true) (hbytes : ∀ x ∈ line, x < 256)
    (h : formatBuffer a line ln nl = some (out, ln', nl')) :
    ∀ b ∈ out, b = 10 ∨ (32 ≤ b ∧ b ≤ 126) := by
  intro b hb
  simp only [formatBuffer, hends, hnp, htabs, reduceIte] at h
  split at h
  · simp only [Option.some.injEq, Prod.mk.injEq] at h
    rw [← h.1] at hb
    simp at hb
  · cases hfi : line.findIdx? (fun x => x == 10) with
    | none =>
      rw [hfi] at h
      simp at h
    | some i =>
      rw [hfi] at h
      simp only [Option.map_some'] at h
      have hmem : ∀ y ∈ ((insertAt i 36 line).flatMap npEscape).flatMap tabEscape,
          y = 10 ∨ (32 ≤ y ∧ y ≤ 126) := by
        intro y hy
        rw [List.mem_flatMap] at hy
        obtain ⟨x, hx, hyx⟩ := hy
        rw [List.mem_flatMap] at hx
        obtain ⟨z, hz, hxz⟩ := hx
        have hz256 : z < 256 := by
          rcases insertAt_mem i 36 z line hz with h36 | hzl
          · omega
          · exact hbytes z hzl
        exact tabEscape_mem x (npEscape_mem z hz256 x hxz) y hyx
      split at h
      · simp only [Option.some.injEq, Prod.mk.injEq] at h
        rw [← h.1] at hb
        rw [List.mem_append] at hb
        rcases hb with hd | hb
        · have := natDigits_mem ln b hd
          omega
        · rw [List.mem_cons] at hb
          rcases hb with h32 | hb
          · omega
          · exact hmem b hb
      · simp only [Option.some.injEq, Prod.mk.injEq] at h
        rw [← h.1] at hb
        exact hmem b hb

/-! The claims. -/

/-- C1: the claim says end-marker insertion is a no-op on a line with no
line-feed terminator and that the core formatting logic never fails.  The
code instead calls `unwrap` on `new_line_idx`, which is `None` for an
unterminated final line, so with `show_ends` active the process aborts:
`format_buffer` on the unterminated line `"a"` reaches the failure branch
and the whole run dies with a non-zero status instead of emitting the
bytes unchanged. -/
theorem show_ends_unterminated_aborts :
    formatBuffer endsOnly [97] 1 0 = none
    ∧ mainRun endsOnly [[ReadEv.chunk [97]]] = none
    ∧ exitCode endsOnly [[ReadEv.chunk [97]]] = 101 :=
  ⟨rfl, rfl, rfl⟩

/-- C2: the claim says the consecutive-blank counter is carried across
source boundaries, so that squeeze-blank never emits two consecutive blank
lines even across sources.  The code declares `newlines` locally inside
`cat`, resetting it to 0 for every source: a run over two sources that are
each a single blank line emits the two bytes `\n\n` — two consecutive
blank lines — and exits normally. -/
theorem squeeze_blank_source_boundary :
    mainRun sqOnly [[ReadEv.chunk [10]], [ReadEv.chunk [10]]] = some ([10, 10], [], 1)
    ∧ exitCode sqOnly [[ReadEv.chunk [10]], [ReadEv.chunk [10]]] = 0 :=
  ⟨rfl, rfl⟩

/-- C3 counterexample: the claim says a mid-stream read error aborts the
entire run with a non-zero exit and no subsequent source is read or
emitted.  In the code the error arm only breaks out of the loop for that
source: with a failing first source and a healthy second source, the
second source's bytes are still emitted and the process exits 0. -/
theorem read_error_run_continues :
    mainRun allFalse [[ReadEv.err "e"], [ReadEv.chunk [97, 10]]]
      = some ([97, 10], ["Error reading line: e"], 1)
    ∧ exitCode allFalse [[ReadEv.err "e"], [ReadEv.chunk [97, 10]]] = 0 :=
  ⟨rfl, rfl⟩

/-- C3 amended: when a read fails, the program prints the diagnostic,
stops processing the rest of that source, and continues the run with the
remaining sources; the overall result is that of the remaining sources
with the diagnostic prepended (and a normal exit when they succeed). -/
theorem read_error_stops_source_only (a : Args) (nf : Bool) (m : String)
    (junk : List ReadEv) (rest : List (List ReadEv)) (ln : Nat) :
    catRun a nf ((ReadEv.err m :: junk) :: rest) ln
      = (catRun a nf rest ln).map
          (fun r => (r.1, ("Error reading line: " ++ m) :: r.2.1, r.2.2)) := by
  simp only [catRun, catEvents, Option.some_bind]
  cases hr : catRun a nf rest ln with
  | none => rfl
  | some r => rfl

/-- C4 counterexample: the claim says byte 0x8A (`c' = 10`) falls in the
"otherwise" case and is rendered as `M-` followed by the raw byte 10.  The
code's high-byte branch tests only `c >= 128 + 32`, with no exception for
`c' = 10`, so byte 138 renders as `M-^J` (bytes 77 45 94 74), not as
`M-` + 0x0A. -/
theorem npEscape_meta_lf_counterexample :
    npEscape 138 = [77, 45, 94, 74] ∧ npEscape 138 ≠ [77, 45, 10] := by
  constructor
  · rfl
  · decide

/-- C4 amended: for every byte `c > 127`, with `c' = c - 128`: if
`c' < 32` (with no exception for `c' = 10`) the code emits `M-^` followed
by `c' + 64`; if `c = 255` it emits `M-^?`; otherwise it emits `M-`
followed by `c'`. -/
theorem npEscape_high_bytes (c : Nat) (h1 : 127 < c) (h2 : c < 256) :
    npEscape c =
      if c - 128 < 32 then [77, 45, 94, c - 128 + 64]
      else if c = 255 then [77, 45, 94, 63]
      else [77, 45, c - 128] := by
  have h128 : ¬(c < 32 ∧ c ≠ 10 ∧ c ≠ 9) := by omega
  have h127 : c ≠ 127 := by omega
  unfold npEscape
  rw [if_neg h128, if_neg h127, if_pos h1]
  by_cases hge : 128 + 32 ≤ c
  · rw [if_pos hge]
    by_cases h255 : c < 255
    · rw [if_pos h255, if_neg (by omega), if_neg (by omega)]
    · rw [if_neg h255, if_neg (by omega), if_pos (by omega)]
  · rw [if_neg hge, if_pos (by omega)]

/-- Witness for C4 amended at byte 200. -/
theorem npEscape_high_bytes_witness :
    npEscape 200 =
      if 200 - 128 < 32 then [77, 45, 94, 200 - 128 + 64]
      else if 200 = 255 then [77, 45, 94, 63]
      else [77, 45, 200 - 128] :=
  npEscape_high_bytes 200 (by decide) (by decide)

/-- C5: across any run starting at line number 1, the emitted line numbers
are exactly `1, 2, ...` up to the final counter — strictly increasing by
1, starting at 1, spanning all sources with no reset — and a blank line
discarded by squeeze-blank leaves the line number unchanged (it emits
nothing and only bumps the blank counter). -/
theorem numbering_monotone (a : Args) (nf : Bool) (srcs : List (List ReadEv))
    (out ks : List Nat) (ds : List String) (fin ln nl : Nat) (line : List Nat)
    (h : catRunN a nf srcs 1 = some (out, ks, ds, fin))
    (hsq : a.squeeze_blank = true) (hbl : isNewLine line = true) (hnl : 0 < nl) :
    (1 ≤ fin ∧ ks = List.range' 1 (fin - 1))
    ∧ formatBufferN a line ln nl = some ([], none, ln, nl + 1) := by
  constructor
  · exact catRunN_nums a nf srcs 1 out ks ds fin h
  · have hd : decide (nl + 1 > 1) = true := decide_eq_true (by omega)
    simp only [formatBufferN, hbl, hsq, hd, Bool.and_true, Bool.true_and, reduceIte]

/-- Witness for C5: a two-source numbered run emits numbers `[1, 2]`, and
a second consecutive blank under squeeze-blank is discarded without
consuming a number. -/
theorem numbering_monotone_witness :
    ((1 ≤ 3 ∧ [1, 2] = List.range' 1 (3 - 1))
      ∧ formatBufferN numSq [10] 7 1 = some ([], none, 7, 1 + 1)) :=
  numbering_monotone numSq true [[ReadEv.chunk [97, 10]], [ReadEv.chunk [98, 10]]]
    [49, 32, 97, 10, 50, 32, 98, 10] [1, 2] [] 3 7 1 [10]
    (by rfl) (by rfl) (by rfl) (by decide)

/-- C6: resolving the options with both numbering modes set yields exactly
the same `Args` record as resolving with only `number_nonblank` set (the
override forces `number := false`), so the two runs are identical on every
input; moreover under the resolved options a non-blank line receives the
current number (and the counter advances) while a blank line never does
(and the counter is unchanged). -/
theorem nonblank_precedence (a : Args) (line out out2 : List Nat) (k k2 : Option Nat)
    (ln nl ln' nl' ln2 nl2 : Nat) (hline : line ≠ [10])
    (h : formatBufferN (resolveArgs { a with number := true, number_nonblank := true })
          line ln nl = some (out, k, ln', nl'))
    (h2 : formatBufferN (resolveArgs { a with number := true, number_nonblank := true })
          [10] ln nl = some (out2, k2, ln2, nl2)) :
    resolveArgs { a with number := true, number_nonblank := true }
        = resolveArgs { a with number := false, number_nonblank := true }
    ∧ k = some ln ∧ ln' = ln + 1 ∧ k2 = none ∧ ln2 = ln := by
  refine ⟨resolveArgs_both a, ?_⟩
  have hnum : (resolveArgs { a with number := true, number_nonblank := true }).number
      = false := by
    rw [resolveArgs_number]
    rfl
  have hnb : (resolveArgs { a with number := true, number_nonblank := true }).number_nonblank
      = true := by
    rw [resolveArgs_number_nonblank]
  have hbl : isNewLine line = false := isNewLine_eq_false line hline
  obtain ⟨hk, hln⟩ := formatBufferN_nonblank_number _ line out k ln nl ln' nl' hnb hbl h
  obtain ⟨hk2, hln2⟩ := formatBufferN_no_number _ [10] out2 k2 ln nl ln2 nl2 hnum (by rfl) h2
  exact ⟨hk, hln, hk2, hln2⟩

/-- Witness for C6 at a concrete non-blank line `"a\n"` and counter 5. -/
theorem nonblank_precedence_witness :
    resolveArgs { allFalse with number := true, number_nonblank := true }
        = resolveArgs { allFalse with number := false, number_nonblank := true }
    ∧ some 5 = some 5 ∧ 6 = 5 + 1 ∧ (none : Option Nat) = none ∧ 5 = 5 :=
  nonblank_precedence allFalse [97, 10] [53, 32, 97, 10] [10] (some 5) none
    5 0 6 0 5 0 (by decide) (by rfl) (by rfl)

/-- C7: with every flag false, `format_buffer` returns any line unchanged
(and never fails); the bypass path (`needs_formatting == false`) produces
exactly the same run result as routing every line through `format_buffer`;
and a full program run over the line-chunking of an arbitrary byte
sequence `s` emits `s` byte-identically. -/
theorem passthrough_identity (line s : List Nat) (srcs : List (List ReadEv)) (ln nl : Nat) :
    formatBuffer allFalse line ln nl = some (line, ln, 0)
    ∧ catRun allFalse false srcs ln = catRun allFalse true srcs ln
    ∧ mainRun allFalse [(splitLines s).map ReadEv.chunk] = some (s, [], 1) := by
  refine ⟨formatBuffer_allFalse line ln nl, catRun_bypass srcs ln, ?_⟩
  show catRun allFalse false [(splitLines s).map ReadEv.chunk] 1 = _
  rw [catRun_bypass]
  simp only [catRun]
  rw [catEvents_chunks (splitLines s) 1 0 (splitLines_ne_nil s)]
  simp [splitLines_flatten s]

/-- C8: for a terminator-ended line, `show_ends` alone inserts exactly one
`$` (byte 36) immediately before the final line-feed, and the output is
exactly one byte longer than the input line. -/
theorem show_ends_end_marker (content : List Nat) (ln nl : Nat) (h : 10 ∉ content) :
    formatBuffer endsOnly (content ++ [10]) ln nl = some (content ++ [36, 10], ln, 0)
    ∧ (content ++ [36, 10]).length = (content ++ [10]).length + 1 := by
  constructor
  · simp only [formatBuffer, endsOnly, allFalse, Bool.and_false, Bool.false_and,
      Bool.false_eq_true, if_false, reduceIte, Bool.false_or, Bool.or_false,
      findIdx?_terminator content h, Option.map_some']
    rw [insertAt_terminator]
  · simp

/-- Witness for C8 on the line `"a\n"`. -/
theorem show_ends_end_marker_witness :
    (formatBuffer endsOnly ([97] ++ [10]) 1 0 = some ([97] ++ [36, 10], 1, 0)
      ∧ ([97] ++ [36, 10]).length = ([97] ++ [10]).length + 1) :=
  show_ends_end_marker [97] 1 0 (by decide)

/-- C9: with `show_non_printing`, byte 0 renders as `^@`, byte 127 as
`^?`, byte 255 as `M-^?`, byte 129 as `M-^A`; a tab renders as `^I` under
`show_tabs`, while under `show_non_printing` alone a tab line passes
through unchanged. -/
theorem show_nonprinting_scenarios :
    npEscape 0 = [94, 64] ∧ npEscape 127 = [94, 63] ∧ npEscape 255 = [77, 45, 94, 63]
    ∧ npEscape 129 = [77, 45, 94, 65]
    ∧ formatBuffer tabsOnly [9, 10] 1 0 = some ([94, 73, 10], 1, 0)
    ∧ formatBuffer vOnly [9, 10] 1 0 = some ([9, 10], 1, 0) :=
  ⟨rfl, rfl, rfl, rfl, rfl, rfl⟩

/-- C10: when `show_ends`, `show_non_printing` and `show_tabs` are all
active, every byte emitted by `format_buffer` for a line-feed-terminated
line of bytes is either the line-feed 0x0A or printable ASCII 32..126. -/
theorem show_all_output_printable (a : Args) (content out : List Nat)
    (ln nl ln' nl' b : Nat)
    (hends : a.show_ends = true) (hnp : a.show_non_printing = true)
    (htabs : a.show_tabs = true) (hbytes : ∀ x ∈ content, x < 256)
    (h : formatBuffer a (content ++ [10]) ln nl = some (out, ln', nl'))
    (hb : b ∈ out) :
    b = 10 ∨ (32 ≤ b ∧ b ≤ 126) := by
  refine formatBuffer_mem a (content ++ [10]) out ln nl ln' nl' hends hnp htabs ?_ h b hb
  intro x hx
  rcases List.mem_append.1 hx with hx | hx
  · exact hbytes x hx
  · simp only [List.mem_singleton] at hx
    omega

/-- Witness for C10 on the line consisting of the NUL byte and the
terminator: the output `^@$\n` is within the printable-or-line-feed set,
checked at its first byte `^` (94). -/
theorem show_all_output_printable_witness :
    94 = 10 ∨ (32 ≤ 94 ∧ 94 ≤ 126) :=
  show_all_output_printable showAllOpts [0] [94, 64, 36, 10] 1 0 1 0 94
    (by rfl) (by rfl) (by rfl) (by decide) (by rfl) (by decide)
